import Mathlib

/-!
# Package `wait` (wait/wait.go)

A shallow embedding of the condition-polling engine: the two wait loops
(`WaitFor`, `WaitForFinish`), the ticking producer started by `poller`, and the
wrappers built from them (`Poll`, `PollImmediate`, `PollInfinite`,
`PollImmediateInfinite`, `PollUntil`, `PollUntilFinish`).

Conventions of the embedding

* A `ConditionFunc` is a Go closure; the state it reads and changes is the
  explicit component `cond` of `World`.
* A call is described by what its channel operations observe.  The i-th receive
  `_, open := <-ch` of a wait loop observes `ch i : Bool`, the value of `open`.
  A receive that never completes belongs to a call that never returns; the
  embedding describes the receives that complete.
* Goroutines, timers and the choice a `select` makes among ready cases are the
  environment of a call: `SigEnv` for the termination request, `Runtime` and the
  event sequences of `pollerRun` for the producer.
* The loops of the source are unbounded `for` loops; the embedding gives them a
  fuel argument and returns `none` when the fuel is used up before the loop
  returns.  One unit of fuel is one iteration.
* `World` also carries counters that the source does not have (`evals`,
  `starts`); they only record how often the condition and a `WaitFunc` have
  been invoked.
-/

namespace Wait

/-! ## Data model -/

/-- The pair `(done bool, err error)` returned by a condition; `none` is the nil error. -/
abbrev CondResult (ε : Type) := Bool × Option ε

/-- Go `type ConditionFunc func() (done bool, err error)`: one invocation reads the
state of the closure and of what it inspects, and leaves a new state. -/
abbrev ConditionFunc (σ ε : Type) := σ → CondResult ε × σ

/-- The reading end of the channel a `WaitFunc` returns: `ch i` is the flag `open`
observed by the i-th receive (`true`: a tick was received, `false`: the channel is closed). -/
abbrev TickStream := Nat → Bool

/-- The stop channel `done <-chan struct{}` handed to a `WaitFunc`: `done i` says that in
round i (while the i-th receive of the wait loop is pending) the producer finds it closed. -/
abbrev StopCh := Nat → Bool

/-- Go `type WaitFunc func(done <-chan struct{}) <-chan struct{}`. -/
abbrev WaitFunc := StopCh → TickStream

/-- Process state threaded through a call. -/
structure World (σ : Type) where
  /-- State behind the condition closure. -/
  cond : σ
  /-- Number of condition invocations so far. -/
  evals : Nat
  /-- Number of `WaitFunc` invocations so far (producers started). -/
  starts : Nat
  /-- Identity that the next signal channel made by `make(chan os.Signal, 1)` receives. -/
  nextChan : Nat
  /-- Channels registered with `signal.Notify` and not removed since. -/
  listeners : List Nat
deriving DecidableEq, Repr

/-- What a call returns: the Go `error` (`none` is nil) and the process state it leaves. -/
abbrev Ret (σ ε : Type) := Option ε × World σ

/-- One invocation `fn()` of the condition. -/
def evalCond {σ ε : Type} (fn : ConditionFunc σ ε) (w : World σ) : CondResult ε × World σ :=
  ((fn w.cond).1, { w with cond := (fn w.cond).2, evals := w.evals + 1 })

/-- One invocation `wait(done)` of a `WaitFunc`. -/
def startWait {σ : Type} (wait : WaitFunc) (done : StopCh) (w : World σ) : TickStream × World σ :=
  (wait done, { w with starts := w.starts + 1 })

/-- The closure state after `n` successive invocations of the condition. -/
def stateAfter {σ ε : Type} (fn : ConditionFunc σ ε) : Nat → σ → σ
  | 0, s => s
  | n + 1, s => stateAfter fn n (fn s).2

/-- The result of the invocation that follows `n` earlier ones, counted from closure state
`s`: `resultAt fn s 0` is the first evaluation, `resultAt fn s n` the `n+1`-th. -/
def resultAt {σ ε : Type} (fn : ConditionFunc σ ε) (s : σ) (n : Nat) : CondResult ε :=
  (fn (stateAfter fn n s)).1

/-- The world after `n` successive invocations of the condition. -/
def advance {σ ε : Type} (fn : ConditionFunc σ ε) (n : Nat) (w : World σ) : World σ :=
  { w with cond := stateAfter fn n w.cond, evals := w.evals + n }

/-! ## WaitFor -/

/-- The `for` loop of `WaitFor` (wait.go lines 16-28), started at its i-th receive. -/
def waitForLoop {σ ε : Type} (fn : ConditionFunc σ ε) (ch : TickStream) :
    Nat → Nat → World σ → Option (Ret σ ε)
  | 0, _, _ => none
  | fuel + 1, i, w =>
    let opn := ch i
    let r := evalCond fn w
    match r.1.2 with
    | some e => some (some e, r.2)
    | none =>
      if r.1.1 then some (none, r.2)
      else if !opn then some (none, r.2)
      else waitForLoop fn ch fuel (i + 1) r.2

/-- Go `func WaitFor(wait WaitFunc, fn ConditionFunc, done <-chan struct{}) error`. -/
def WaitFor {σ ε : Type} (wait : WaitFunc) (fn : ConditionFunc σ ε) (done : StopCh)
    (fuel : Nat) (w : World σ) : Option (Ret σ ε) :=
  let c := startWait wait done w
  waitForLoop fn c.1 fuel 0 c.2

/-! ## WaitForFinish -/

/-- What the `select` of `WaitForFinish` meets, round by round.  The forwarding goroutine
puts one value on `finishUp` once a signal has reached `gracefulStop`. -/
structure SigEnv where
  /-- A value is available on `finishUp` when the select of round i is decided. -/
  finishUp : Nat → Bool
  /-- At that moment `ch` has a tick or its closure pending as well. -/
  chReady : Nat → Bool
  /-- The case the Go runtime picks when both cases can proceed (`true`: the receive on `ch`). -/
  pickCh : Nat → Bool

/-- The select of round i takes `case <-finishUp`. -/
def SigEnv.takesFinish (sg : SigEnv) (i : Nat) : Bool :=
  sg.finishUp i && !(sg.chReady i && sg.pickCh i)

/-- The labelled loop of `WaitForFinish` (wait.go lines 45-58), started at round i. -/
def finishLoop {σ ε : Type} (fn : ConditionFunc σ ε) (sg : SigEnv) (ch : TickStream) :
    Nat → Nat → World σ → Option (Ret σ ε)
  | 0, _, _ => none
  | fuel + 1, i, w =>
    if sg.takesFinish i then some (none, w)
    else
      let opn := ch i
      let r := evalCond fn w
      match r.1.2 with
      | some e => some (some e, r.2)
      | none =>
        if !opn then some (none, r.2)
        else finishLoop fn sg ch fuel (i + 1) r.2

/-- The two statements `gracefulStop = make(chan os.Signal, 1)` and
`signal.Notify(gracefulStop, ...)`: a new channel is registered.  The source has no
`signal.Stop`. -/
def notifyGracefulStop {σ : Type} (w : World σ) : World σ :=
  { w with nextChan := w.nextChan + 1, listeners := w.listeners ++ [w.nextChan] }

/-- Go `func WaitForFinish(wait WaitFunc, fn ConditionFunc, done <-chan struct{}) error`. -/
def WaitForFinish {σ ε : Type} (wait : WaitFunc) (fn : ConditionFunc σ ε) (done : StopCh)
    (sg : SigEnv) (fuel : Nat) (w : World σ) : Option (Ret σ ε) :=
  let w1 := notifyGracefulStop w
  let c := startWait wait done w1
  finishLoop fn sg c.1 fuel 0 c.2

/-- A caller that makes `n` calls of `WaitForFinish` one after the other. -/
def repeatFinish {σ ε : Type} (wait : WaitFunc) (fn : ConditionFunc σ ε) (done : StopCh)
    (sg : SigEnv) (fuel : Nat) : Nat → World σ → Option (World σ)
  | 0, w => some w
  | n + 1, w =>
    match WaitForFinish wait fn done sg fuel w with
    | none => none
    | some r => repeatFinish wait fn done sg fuel n r.2

/-! ## The producer started by `poller` -/

/-- The case taken by the producer's `select` (wait.go lines 81-91). -/
inductive PEvent
  /-- `case <-tick.C`; the flag says whether a receiver is waiting on `ch` at that moment. -/
  | interval (receiving : Bool)
  /-- `case <-after`. -/
  | deadline
  /-- `case <-done`. -/
  | stop
deriving DecidableEq, Repr

/-- What the producer does to its channel and timers. -/
inductive POp
  /-- The non-blocking send `ch <- struct{}{}`; `false` when the `default` case dropped it. -/
  | offer (taken : Bool)
  /-- Deferred `timer.Stop()`. -/
  | timerStop
  /-- Deferred `tick.Stop()`. -/
  | tickStop
  /-- Deferred `close(ch)`. -/
  | close
deriving DecidableEq, Repr

/-- The producer goroutine: whether it is still in its loop, and what it has done so far. -/
structure Producer where
  running : Bool
  ops : List POp
deriving DecidableEq, Repr

/-- The goroutine on entering its loop: ticker and (for a non-zero timeout) timer exist,
nothing has been done to `ch`.  `time.NewTicker` needs `interval > 0`. -/
def pollerStart : Producer := ⟨true, []⟩

/-- A `return` from the loop: the deferred calls run, last registered first. -/
def pollerExit (timeout : Int) (p : Producer) : Producer :=
  ⟨false, p.ops ++ ((if timeout ≠ 0 then [POp.timerStop] else []) ++ [POp.tickStop, POp.close])⟩

/-- One turn of the producer's loop.  With `timeout = 0` the channel `after` is nil and its
case is never ready; a goroutine that has returned does nothing more. -/
def pollerStep (timeout : Int) (p : Producer) : PEvent → Producer
  | PEvent.interval r => if p.running then ⟨true, p.ops ++ [POp.offer r]⟩ else p
  | PEvent.deadline => if p.running && decide (timeout ≠ 0) then pollerExit timeout p else p
  | PEvent.stop => if p.running then pollerExit timeout p else p

/-- The producer after a sequence of events. -/
def pollerRun (timeout : Int) (p : Producer) (evs : List PEvent) : Producer :=
  evs.foldl (pollerStep timeout) p

/-- Whether the case of an event is a `return` of a running producer: `<-done` always,
`<-after` only when the timer exists. -/
def PEvent.returns (timeout : Int) : PEvent → Bool
  | PEvent.interval _ => false
  | PEvent.deadline => decide (timeout ≠ 0)
  | PEvent.stop => true

/-- The timers of one producer as the Go runtime drives them. -/
structure Runtime where
  /-- In round i the deadline timer has fired and the producer's select takes its case. -/
  deadline : Nat → Bool

/-- The select case that decides round i of the producer, while the i-th receive of the
wait loop is pending. -/
def roundEvent (rt : Runtime) (done : StopCh) (i : Nat) : PEvent :=
  if done i then PEvent.stop
  else if rt.deadline i then PEvent.deadline
  else PEvent.interval true

/-- Go `func poller(interval, timeout time.Duration) WaitFunc`: the i-th receive on the
returned channel gets a tick as long as the producer has not returned. -/
def poller (rt : Runtime) (interval timeout : Int) : WaitFunc :=
  fun done i =>
    (pollerRun timeout pollerStart ((List.range (i + 1)).map (roundEvent rt done))).running

/-! ## Wrappers -/

/-- A channel from `done := make(chan struct{})` whose only close is the deferred
`close(done)` of the function that made it: no round finds it closed. -/
def privateDone : StopCh := fun _ => false

/-- Go `func pollInterval(wait WaitFunc, condition ConditionFunc) error`. -/
def pollInterval {σ ε : Type} (wait : WaitFunc) (condition : ConditionFunc σ ε)
    (fuel : Nat) (w : World σ) : Option (Ret σ ε) :=
  WaitFor wait condition privateDone fuel w

/-- Go `func Poll(interval, timeout time.Duration, condition ConditionFunc) error`. -/
def Poll {σ ε : Type} (rt : Runtime) (interval timeout : Int) (condition : ConditionFunc σ ε)
    (fuel : Nat) (w : World σ) : Option (Ret σ ε) :=
  pollInterval (poller rt interval timeout) condition fuel w

/-- Go `func pollImmediateInterval(wait WaitFunc, condition ConditionFunc) error`. -/
def pollImmediateInterval {σ ε : Type} (wait : WaitFunc) (condition : ConditionFunc σ ε)
    (fuel : Nat) (w : World σ) : Option (Ret σ ε) :=
  let r := evalCond condition w
  match r.1.2 with
  | some e => some (some e, r.2)
  | none =>
    if r.1.1 then some (none, r.2)
    else pollInterval wait condition fuel r.2

/-- Go `func PollImmediate(interval, timeout time.Duration, condition ConditionFunc) error`. -/
def PollImmediate {σ ε : Type} (rt : Runtime) (interval timeout : Int)
    (condition : ConditionFunc σ ε) (fuel : Nat) (w : World σ) : Option (Ret σ ε) :=
  pollImmediateInterval (poller rt interval timeout) condition fuel w

/-- Go `func PollUntil(interval time.Duration, condition ConditionFunc, stopCh <-chan struct{}) error`. -/
def PollUntil {σ ε : Type} (rt : Runtime) (interval : Int) (condition : ConditionFunc σ ε)
    (stopCh : StopCh) (fuel : Nat) (w : World σ) : Option (Ret σ ε) :=
  WaitFor (poller rt interval 0) condition stopCh fuel w

/-- Go `func PollInfinite(interval time.Duration, condition ConditionFunc) error`. -/
def PollInfinite {σ ε : Type} (rt : Runtime) (interval : Int) (condition : ConditionFunc σ ε)
    (fuel : Nat) (w : World σ) : Option (Ret σ ε) :=
  PollUntil rt interval condition privateDone fuel w

/-- Go `func PollImmediateInfinite(interval time.Duration, condition ConditionFunc) error`. -/
def PollImmediateInfinite {σ ε : Type} (rt : Runtime) (interval : Int)
    (condition : ConditionFunc σ ε) (fuel : Nat) (w : World σ) : Option (Ret σ ε) :=
  let r := evalCond condition w
  match r.1.2 with
  | some e => some (some e, r.2)
  | none =>
    if r.1.1 then some (none, r.2)
    else PollInfinite rt interval condition fuel r.2

/-- Go `func PollUntilFinish(interval time.Duration, condition ConditionFunc) error`. -/
def PollUntilFinish {σ ε : Type} (rt : Runtime) (sg : SigEnv) (interval : Int)
    (condition : ConditionFunc σ ε) (fuel : Nat) (w : World σ) : Option (Ret σ ε) :=
  let r := evalCond condition w
  match r.1.2 with
  | some e => some (some e, r.2)
  | none => WaitForFinish (poller rt interval 0) condition privateDone sg fuel r.2

/-! ## Concrete inputs used by the examples -/

/-- The world before anything has happened. -/
def world0 : World Nat := ⟨0, 0, 0, 0, []⟩

/-- A condition that counts its invocations and answers from a script, by invocation number. -/
def scripted {ε : Type} (script : Nat → CondResult ε) : ConditionFunc Nat ε :=
  fun n => (script n, n + 1)

/-- A condition that answers `(false, nil)` on its first `k` calls and `(true, nil)` after. -/
def satisfiedFrom (k : Nat) : ConditionFunc Nat Nat :=
  scripted (fun n => (decide (k ≤ n), none))

/-- A condition that answers `(false, nil)` except on call `k+1`, where it returns error `e`. -/
def errorAt (k e : Nat) : ConditionFunc Nat Nat :=
  scripted (fun n => if n = k then (false, some e) else (false, none))

/-- A condition that answers `(true, nil)` except on call `k+1`, where it returns error `e`. -/
def satisfiedThenError (k e : Nat) : ConditionFunc Nat Nat :=
  scripted (fun n => if n = k then (false, some e) else (true, none))

/-- A condition that always answers `(false, nil)`. -/
def neverSatisfied : ConditionFunc Nat Nat :=
  scripted (fun _ => (false, none))

/-- A condition that always answers `(true, nil)`. -/
def alwaysSatisfied : ConditionFunc Nat Nat :=
  scripted (fun _ => (true, none))

/-- A channel that delivers `n` ticks and is then closed. -/
def ticksThenClosed (n : Nat) : TickStream := fun i => decide (i < n)

/-- A `WaitFunc` whose channel is the given one whatever the stop channel. -/
def constWait (ch : TickStream) : WaitFunc := fun _ => ch

/-- A termination request is available from the first select on; in round 0 a tick or the
closure of `ch` is pending at the same moment and the runtime picks the receive on `ch`. -/
def requestWithPendingCh : SigEnv := ⟨fun _ => true, fun i => decide (i = 0), fun _ => true⟩

/-- A termination request becomes available in round `k`, with nothing pending on `ch`. -/
def requestAt (k : Nat) : SigEnv := ⟨fun i => decide (k ≤ i), fun _ => false, fun _ => false⟩

/-- No termination request ever arrives. -/
def noSignal : SigEnv := ⟨fun _ => false, fun _ => false, fun _ => false⟩

/-! ## Lemmas on the state of the condition -/

theorem advance_zero {σ ε : Type} (fn : ConditionFunc σ ε) (w : World σ) :
    advance fn 0 w = w := rfl

theorem advance_succ {σ ε : Type} (fn : ConditionFunc σ ε) (n : Nat) (w : World σ) :
    advance fn (n + 1) w = advance fn n (evalCond fn w).2 := by
  simp only [advance, evalCond, stateAfter]
  congr 1
  omega

theorem resultAt_zero {σ ε : Type} (fn : ConditionFunc σ ε) (s : σ) :
    resultAt fn s 0 = (fn s).1 := rfl

theorem resultAt_succ {σ ε : Type} (fn : ConditionFunc σ ε) (s : σ) (n : Nat) :
    resultAt fn s (n + 1) = resultAt fn (fn s).2 n := rfl

theorem evalCond_fst {σ ε : Type} (fn : ConditionFunc σ ε) (w : World σ) :
    (evalCond fn w).1 = resultAt fn w.cond 0 := rfl

theorem evalCond_snd {σ ε : Type} (fn : ConditionFunc σ ε) (w : World σ) :
    (evalCond fn w).2 = advance fn 1 w := rfl

theorem evalCond_snd_cond {σ ε : Type} (fn : ConditionFunc σ ε) (w : World σ) :
    (evalCond fn w).2.cond = (fn w.cond).2 := rfl

/-! ## Lemmas on the loop of `WaitFor` -/

/-- An error ends the loop. -/
theorem waitForLoop_err {σ ε : Type} (fn : ConditionFunc σ ε) (ch : TickStream)
    (fuel i : Nat) (w : World σ) (e : ε) (h : (resultAt fn w.cond 0).2 = some e) :
    waitForLoop fn ch (fuel + 1) i w = some (some e, advance fn 1 w) := by
  have h1 : (evalCond fn w).1.2 = some e := h
  simp only [waitForLoop, h1]
  rfl

/-- Without error, a satisfied condition or a closed channel ends the loop with nil. -/
theorem waitForLoop_nil {σ ε : Type} (fn : ConditionFunc σ ε) (ch : TickStream)
    (fuel i : Nat) (w : World σ) (h : (resultAt fn w.cond 0).2 = none)
    (h2 : (resultAt fn w.cond 0).1 = true ∨ ch i = false) :
    waitForLoop fn ch (fuel + 1) i w = some (none, advance fn 1 w) := by
  have h1 : (evalCond fn w).1.2 = none := h
  have h3 : (evalCond fn w).1.1 = true ∨ ch i = false := h2
  simp only [waitForLoop, h1]
  rcases h3 with h3 | h3
  · simp only [h3, if_true]; rfl
  · by_cases h4 : (evalCond fn w).1.1 = true
    · simp only [h4, if_true]; rfl
    · simp only [h4, h3, Bool.not_false, if_true]; rfl

/-- An unsatisfied condition on a tick sends the loop to its next receive. -/
theorem waitForLoop_next {σ ε : Type} (fn : ConditionFunc σ ε) (ch : TickStream)
    (fuel i : Nat) (w : World σ) (h : resultAt fn w.cond 0 = (false, none))
    (ho : ch i = true) :
    waitForLoop fn ch (fuel + 1) i w = waitForLoop fn ch fuel (i + 1) (advance fn 1 w) := by
  have h1 : (evalCond fn w).1 = (false, none) := h
  simp only [waitForLoop, h1, ho]
  rfl

/-- As long as ticks arrive and the condition answers `(false, nil)`, the loop goes on. -/
theorem waitForLoop_ticks {σ ε : Type} (fn : ConditionFunc σ ε) (ch : TickStream)
    (k : Nat) : ∀ (fuel i : Nat) (w : World σ),
    (∀ j, j < k → ch (i + j) = true) →
    (∀ j, j < k → resultAt fn w.cond j = (false, none)) →
    waitForLoop fn ch (fuel + k) i w = waitForLoop fn ch fuel (i + k) (advance fn k w) := by
  induction k with
  | zero => intro fuel i w _ _; rfl
  | succ k ih =>
    intro fuel i w hch hres
    have e1 : fuel + (k + 1) = (fuel + k) + 1 := by omega
    rw [e1, waitForLoop_next fn ch (fuel + k) i w (hres 0 (Nat.succ_pos k))
      (by simpa using hch 0 (Nat.succ_pos k))]
    rw [ih fuel (i + 1) (advance fn 1 w)
      (fun j hj => by have := hch (j + 1) (by omega); rwa [Nat.add_assoc, Nat.add_comm 1 j])
      (fun j hj => by simpa [advance, stateAfter, resultAt] using hres (j + 1) (by omega))]
    have e2 : i + 1 + k = i + (k + 1) := by omega
    have e3 : advance fn k (advance fn 1 w) = advance fn (k + 1) w := by
      rw [advance_succ fn k w]; rfl
    rw [e2, e3]

/-- What a returning loop has done: it went through `k` ticks on which the condition
answered `(false, nil)` and returned on evaluation `k+1`. -/
theorem waitForLoop_inv {σ ε : Type} (fn : ConditionFunc σ ε) (ch : TickStream)
    (fuel : Nat) : ∀ (i : Nat) (w : World σ) (r : Option ε) (w2 : World σ),
    waitForLoop fn ch fuel i w = some (r, w2) →
    ∃ k, k < fuel ∧
      (∀ j, j < k → ch (i + j) = true ∧ resultAt fn w.cond j = (false, none)) ∧
      w2 = advance fn (k + 1) w ∧ r = (resultAt fn w.cond k).2 ∧
      (r = none → (resultAt fn w.cond k).1 = true ∨ ch (i + k) = false) := by
  induction fuel with
  | zero => intro i w r w2 h; simp [waitForLoop] at h
  | succ fuel ih =>
    intro i w r w2 h
    rcases hres : resultAt fn w.cond 0 with ⟨b, oe⟩
    cases oe with
    | some e =>
      rw [waitForLoop_err fn ch fuel i w e (by rw [hres])] at h
      simp only [Option.some.injEq, Prod.mk.injEq] at h
      refine ⟨0, Nat.succ_pos fuel, fun j hj => absurd hj (Nat.not_lt_zero j), h.2.symm, ?_, ?_⟩
      · rw [hres]; exact h.1.symm
      · intro hr; rw [hr] at h; exact absurd h.1 (by simp)
    | none =>
      by_cases hstop : b = true ∨ ch i = false
      · have hstop2 : (resultAt fn w.cond 0).1 = true ∨ ch i = false := by rw [hres]; exact hstop
        rw [waitForLoop_nil fn ch fuel i w (by rw [hres]) hstop2] at h
        simp only [Option.some.injEq, Prod.mk.injEq] at h
        refine ⟨0, Nat.succ_pos fuel, fun j hj => absurd hj (Nat.not_lt_zero j), h.2.symm, ?_, ?_⟩
        · rw [hres]; exact h.1.symm
        · intro _; exact hstop2
      · have hb : b = false := by
          cases b with
          | false => rfl
          | true => exact absurd (Or.inl rfl) hstop
        have ho : ch i = true := by
          cases hc : ch i with
          | true => rfl
          | false => exact absurd (Or.inr hc) hstop
        subst hb
        rw [waitForLoop_next fn ch fuel i w hres ho] at h
        obtain ⟨k, hk, hpre, hw2, hr, hnil⟩ := ih (i + 1) (advance fn 1 w) r w2 h
        have e3 : advance fn (k + 1) (advance fn 1 w) = advance fn (k + 1 + 1) w := by
          rw [advance_succ fn (k + 1) w]; rfl
        refine ⟨k + 1, Nat.succ_lt_succ hk, ?_, ?_, hr, ?_⟩
        · intro j hj
          cases j with
          | zero => exact ⟨ho, hres⟩
          | succ j =>
            have := hpre j (by omega)
            have e4 : i + 1 + j = i + (j + 1) := by omega
            rw [e4] at this
            exact this
        · rw [hw2, e3]
        · intro hr0
          have := hnil hr0
          have e4 : i + 1 + k = i + (k + 1) := by omega
          rw [e4] at this
          exact this

theorem stateAfter_succ_right {σ ε : Type} (fn : ConditionFunc σ ε) (n : Nat) :
    ∀ s : σ, stateAfter fn (n + 1) s = (fn (stateAfter fn n s)).2 := by
  induction n with
  | zero => intro s; rfl
  | succ n ih => intro s; exact ih (fn s).2

theorem advance_one_advance {σ ε : Type} (fn : ConditionFunc σ ε) (k : Nat) (w : World σ) :
    advance fn 1 (advance fn k w) = advance fn (k + 1) w := by
  simp only [advance]
  rw [stateAfter_succ_right fn k w.cond]
  rfl

/-- The loop of `WaitFor` when it meets `k` ticks with answer `(false, nil)` and then
evaluates once more: that evaluation decides. -/
theorem waitForLoop_decides {σ ε : Type} (fn : ConditionFunc σ ε) (ch : TickStream)
    (k fuel : Nat) (w : World σ) (hfuel : k < fuel)
    (hch : ∀ j, j < k → ch j = true)
    (hres : ∀ j, j < k → resultAt fn w.cond j = (false, none))
    (hlast : (resultAt fn w.cond k).2 ≠ none ∨ (resultAt fn w.cond k).1 = true ∨ ch k = false) :
    waitForLoop fn ch fuel 0 w = some ((resultAt fn w.cond k).2, advance fn (k + 1) w) := by
  obtain ⟨f, rfl⟩ : ∃ f, fuel = (f + 1) + k := ⟨fuel - k - 1, by omega⟩
  rw [waitForLoop_ticks fn ch k (f + 1) 0 w (fun j hj => by simpa using hch j hj) hres,
    Nat.zero_add]
  have hk : resultAt fn (advance fn k w).cond 0 = resultAt fn w.cond k := rfl
  cases hoe : (resultAt fn w.cond k).2 with
  | some e =>
    rw [waitForLoop_err fn ch f k (advance fn k w) e (by rw [hk, hoe]), advance_one_advance]
  | none =>
    have h2 : (resultAt fn w.cond k).1 = true ∨ ch k = false := by
      rcases hlast with h | h
      · exact absurd hoe h
      · exact h
    rw [waitForLoop_nil fn ch f k (advance fn k w) (by rw [hk, hoe]) (by rw [hk]; exact h2),
      advance_one_advance]

/-! ## WaitFor: errors, success, exhaustion -/

/-- C1 (error propagation in WaitFor).  If the stream delivers ticks for the first `k`
receives, the first `k` evaluations answer `(false, nil)` and evaluation `k+1` returns the
error `e`, then WaitFor returns exactly `e` after exactly `k+1` evaluations, given fuel for
`k+1` iterations.  Conversely, whenever WaitFor returns an error `e`, the last evaluation
it made returned `e`.  Poll, PollUntil and PollInfinite are WaitFor on a poller. -/
theorem waitFor_error_propagation {σ ε : Type} (wait : WaitFunc) (fn : ConditionFunc σ ε)
    (done : StopCh) (w : World σ) :
    (∀ (k : Nat) (e : ε),
        (∀ i, i < k → wait done i = true) →
        (∀ i, i < k → resultAt fn w.cond i = (false, none)) →
        (resultAt fn w.cond k).2 = some e →
        ∀ fuel, k < fuel →
          WaitFor wait fn done fuel w =
            some (some e, { w with cond := stateAfter fn (k + 1) w.cond,
                                   evals := w.evals + (k + 1),
                                   starts := w.starts + 1 })) ∧
    (∀ (fuel : Nat) (e : ε) (w2 : World σ),
        WaitFor wait fn done fuel w = some (some e, w2) →
        ∃ k, w2.evals = w.evals + (k + 1) ∧ (resultAt fn w.cond k).2 = some e ∧
          w2.cond = stateAfter fn (k + 1) w.cond) ∧
    (∀ (rt : Runtime) (interval timeout : Int) (fuel : Nat),
        Poll rt interval timeout fn fuel w
            = WaitFor (poller rt interval timeout) fn privateDone fuel w ∧
        PollUntil rt interval fn done fuel w = WaitFor (poller rt interval 0) fn done fuel w ∧
        PollInfinite rt interval fn fuel w
            = WaitFor (poller rt interval 0) fn privateDone fuel w) := by
  refine ⟨?_, ?_, fun _ _ _ _ => ⟨rfl, rfl, rfl⟩⟩
  · intro k e hch hres herr fuel hfuel
    have h := waitForLoop_decides fn (wait done) k fuel (startWait wait done w).2 hfuel hch hres
      (Or.inl (by
        have : (resultAt fn (startWait wait done w).2.cond k).2 = some e := herr
        rw [this]; simp))
    have herr2 : (resultAt fn (startWait wait done w).2.cond k).2 = some e := herr
    rw [herr2] at h
    exact h
  · intro fuel e w2 h
    obtain ⟨k, _, _, hw2, hr, _⟩ :=
      waitForLoop_inv fn (wait done) fuel 0 (startWait wait done w).2 (some e) w2 h
    refine ⟨k, ?_, hr.symm, ?_⟩
    · rw [hw2]; rfl
    · rw [hw2]; rfl

/-- Witness for C1, the scenario of the specification: the condition returns
`(false, boom)` on its 2nd call (error value 7), the stream ticks for ever. -/
theorem waitFor_error_propagation_witness :
    WaitFor (constWait (fun _ => true)) (errorAt 1 7) privateDone 9 world0
      = some (some 7, ⟨2, 2, 1, 0, []⟩) :=
  (waitFor_error_propagation (constWait (fun _ => true)) (errorAt 1 7)
      privateDone world0).1 1 7 (by decide) (by decide) (by decide) 9 (by decide)

/-- C2 (termination on success in WaitFor).  If the first `k` evaluations answer
`(false, nil)` and evaluation `k+1` answers `(true, nil)`, then on every stream WaitFor
returns nil after `j+1` evaluations for some `j ≤ k`, the count in the returned world
being final; when the first `k` receives are ticks (the stream delivers at least `k+1`
events) the count is exactly `k+1`. -/
theorem waitFor_success_termination {σ ε : Type} (wait : WaitFunc) (fn : ConditionFunc σ ε)
    (done : StopCh) (w : World σ) (k : Nat)
    (hfalse : ∀ i, i < k → resultAt fn w.cond i = (false, none))
    (htrue : resultAt fn w.cond k = (true, none)) :
    ∃ j, j ≤ k ∧
      (∀ fuel, k < fuel →
        WaitFor wait fn done fuel w =
          some (none, { w with cond := stateAfter fn (j + 1) w.cond,
                               evals := w.evals + (j + 1),
                               starts := w.starts + 1 })) ∧
      ((∀ i, i < k → wait done i = true) → j = k) := by
  by_cases hall : ∀ i, i < k → wait done i = true
  · refine ⟨k, Nat.le_refl k, ?_, fun _ => rfl⟩
    intro fuel hfuel
    have h := waitForLoop_decides fn (wait done) k fuel (startWait wait done w).2 hfuel hall
      hfalse (Or.inr (Or.inl (by
        show (resultAt fn w.cond k).1 = true
        rw [htrue])))
    have h2 : (resultAt fn (startWait wait done w).2.cond k).2 = none := by
      show (resultAt fn w.cond k).2 = none
      rw [htrue]
    rw [h2] at h
    exact h
  · have hex : ∃ m, m < k ∧ wait done m = false := by
      by_contra hne
      apply hall
      intro i hi
      cases hc : wait done i with
      | true => rfl
      | false => exact absurd ⟨i, hi, hc⟩ hne
    have hm := Nat.find_spec hex
    have hmin : ∀ i, i < Nat.find hex → wait done i = true := by
      intro i hi
      cases hc : wait done i with
      | true => rfl
      | false => exact absurd ⟨Nat.lt_trans hi hm.1, hc⟩ (Nat.find_min hex hi)
    refine ⟨Nat.find hex, Nat.le_of_lt hm.1, ?_, fun h => absurd h hall⟩
    intro fuel hfuel
    have h := waitForLoop_decides fn (wait done) (Nat.find hex) fuel (startWait wait done w).2
      (Nat.lt_trans hm.1 hfuel) hmin (fun j hj => hfalse j (Nat.lt_trans hj hm.1))
      (Or.inr (Or.inr hm.2))
    have h2 : (resultAt fn (startWait wait done w).2.cond (Nat.find hex)).2 = none := by
      show (resultAt fn w.cond (Nat.find hex)).2 = none
      rw [hfalse _ hm.1]
    rw [h2] at h
    exact h

/-- Witness for C2, the scenario of the specification: the condition answers `(false, nil)`
three times and then `(true, nil)`; on a stream with at least three ticks WaitFor makes
exactly 4 evaluations. -/
theorem waitFor_success_termination_witness :
    ∃ j, j ≤ 3 ∧
      (∀ fuel, 3 < fuel →
        WaitFor (constWait (ticksThenClosed 5)) (satisfiedFrom 3) privateDone fuel world0 =
          some (none, { world0 with cond := stateAfter (satisfiedFrom 3) (j + 1) world0.cond,
                                    evals := world0.evals + (j + 1),
                                    starts := world0.starts + 1 })) ∧
      ((∀ i, i < 3 → constWait (ticksThenClosed 5) privateDone i = true) → j = 3) :=
  waitFor_success_termination (constWait (ticksThenClosed 5)) (satisfiedFrom 3) privateDone
    world0 3 (by decide) (by decide)

/-! ## Lemmas on the producer -/

theorem pollerStep_running (timeout : Int) (p : Producer) (e : PEvent) :
    (pollerStep timeout p e).running = (p.running && !(e.returns timeout)) := by
  cases e with
  | interval r => cases hp : p.running <;> simp [pollerStep, PEvent.returns, hp]
  | deadline =>
    cases hp : p.running <;> by_cases ht : timeout = 0 <;>
      simp [pollerStep, PEvent.returns, pollerExit, hp, ht]
  | stop => cases hp : p.running <;> simp [pollerStep, PEvent.returns, pollerExit, hp]

theorem pollerRun_running (timeout : Int) (evs : List PEvent) :
    ∀ p : Producer, (pollerRun timeout p evs).running
      = (p.running && evs.all (fun e => !(e.returns timeout))) := by
  induction evs with
  | nil => intro p; simp [pollerRun]
  | cons e evs ih =>
    intro p
    have h := ih (pollerStep timeout p e)
    simp only [pollerRun, List.foldl_cons] at h ⊢
    rw [h, pollerStep_running, List.all_cons, Bool.and_assoc]

/-- A receive on the poller's channel gets a tick exactly when no round so far made the
producer return. -/
theorem poller_open_iff (rt : Runtime) (interval timeout : Int) (done : StopCh) (i : Nat) :
    poller rt interval timeout done i = true ↔
      ∀ j, j ≤ i → (roundEvent rt done j).returns timeout = false := by
  simp only [poller, pollerRun_running, pollerStart, Bool.true_and, List.all_eq_true,
    List.mem_map, List.mem_range, Bool.not_eq_true', forall_exists_index, and_imp]
  constructor
  · intro h j hj
    exact h _ j (Nat.lt_succ_of_le hj) rfl
  · intro h e j hj hje
    rw [← hje]
    exact h j (Nat.le_of_lt_succ hj)

/-- With a timer, a private stop channel and the deadline firing in round `d`, the poller's
channel is closed at some receive `m ≤ d`, after `m` ticks. -/
theorem poller_closes_by_deadline (rt : Runtime) (interval timeout : Int) (d : Nat)
    (ht : timeout ≠ 0) (hd : rt.deadline d = true) :
    ∃ m, m ≤ d ∧ poller rt interval timeout privateDone m = false ∧
      ∀ i, i < m → poller rt interval timeout privateDone i = true := by
  have hclosed : poller rt interval timeout privateDone d = false := by
    cases hc : poller rt interval timeout privateDone d with
    | false => rfl
    | true =>
      have := (poller_open_iff rt interval timeout privateDone d).1 hc d (Nat.le_refl d)
      simp [roundEvent, privateDone, hd, PEvent.returns, ht] at this
  have hex : ∃ m, poller rt interval timeout privateDone m = false := ⟨d, hclosed⟩
  refine ⟨Nat.find hex, Nat.find_min' hex hclosed, Nat.find_spec hex, ?_⟩
  intro i hi
  cases hc : poller rt interval timeout privateDone i with
  | true => rfl
  | false => exact absurd hc (Nat.find_min hex hi)

theorem stateAfter_scripted {ε : Type} (script : Nat → CondResult ε) (n : Nat) :
    ∀ s : Nat, stateAfter (scripted script) n s = s + n := by
  induction n with
  | zero => intro s; rfl
  | succ n ih =>
    intro s
    show stateAfter (scripted script) n (s + 1) = s + (n + 1)
    rw [ih (s + 1)]
    omega

theorem resultAt_scripted {ε : Type} (script : Nat → CondResult ε) (s n : Nat) :
    resultAt (scripted script) s n = script (s + n) := by
  simp [resultAt, stateAfter_scripted, scripted]

/-! ## Exhaustion and closure -/

/-- C5 (timeout exhaustion is not an error).  For a condition that always answers
`(false, nil)`: on every stream that delivers `n` ticks and is then closed, WaitFor returns
nil (after `n+1` evaluations) as soon as it has fuel for `n+1` iterations; and Poll with a
non-zero timeout whose deadline timer fires in some round `d` returns nil after at most
`d+1` iterations. -/
theorem waitFor_exhaustion_returns_nil {σ ε : Type} (fn : ConditionFunc σ ε) (w : World σ)
    (hnever : ∀ i, resultAt fn w.cond i = (false, none)) :
    (∀ (wait : WaitFunc) (done : StopCh) (n : Nat),
        (∀ i, i < n → wait done i = true) → wait done n = false →
        ∀ fuel, n < fuel →
          WaitFor wait fn done fuel w =
            some (none, { w with cond := stateAfter fn (n + 1) w.cond,
                                 evals := w.evals + (n + 1),
                                 starts := w.starts + 1 })) ∧
    (∀ (rt : Runtime) (interval timeout : Int) (d : Nat),
        0 < interval → timeout ≠ 0 → rt.deadline d = true →
        ∃ m, m ≤ d ∧ ∀ fuel, m < fuel →
          Poll rt interval timeout fn fuel w =
            some (none, { w with cond := stateAfter fn (m + 1) w.cond,
                                 evals := w.evals + (m + 1),
                                 starts := w.starts + 1 })) := by
  have key : ∀ (wait : WaitFunc) (done : StopCh) (n : Nat),
      (∀ i, i < n → wait done i = true) → wait done n = false →
      ∀ fuel, n < fuel →
        WaitFor wait fn done fuel w =
          some (none, { w with cond := stateAfter fn (n + 1) w.cond,
                               evals := w.evals + (n + 1),
                               starts := w.starts + 1 }) := by
    intro wait done n hticks hclosed fuel hfuel
    have h := waitForLoop_decides fn (wait done) n fuel (startWait wait done w).2 hfuel hticks
      (fun j _ => hnever j) (Or.inr (Or.inr hclosed))
    have h2 : (resultAt fn (startWait wait done w).2.cond n).2 = none := by
      show (resultAt fn w.cond n).2 = none
      rw [hnever n]
    rw [h2] at h
    exact h
  refine ⟨key, ?_⟩
  intro rt interval timeout d _ ht hd
  obtain ⟨m, hm, hclosed, hticks⟩ := poller_closes_by_deadline rt interval timeout d ht hd
  exact ⟨m, hm, key (poller rt interval timeout) privateDone m hticks hclosed⟩

/-- Witness for C5, the scenario of the specification: three ticks, then the stream is
closed, the condition never satisfied; WaitFor returns nil after 4 evaluations. -/
theorem waitFor_exhaustion_returns_nil_witness :
    WaitFor (constWait (ticksThenClosed 3)) neverSatisfied privateDone 6 world0
      = some (none, ⟨4, 4, 1, 0, []⟩) :=
  (waitFor_exhaustion_returns_nil neverSatisfied world0
      (fun i => resultAt_scripted (fun _ => (false, none)) 0 i)).1
    (constWait (ticksThenClosed 3)) privateDone 3 (by decide) (by decide) 6 (by decide)

/-- C9 as the code has it (closure of the stream).  WaitFor evaluates the condition after
every receive, the one that finds the channel closed included.  When closure is observed
after `n` ticks whose evaluations answered `(false, nil)`, WaitFor makes evaluation `n+1`
and returns the error of that evaluation: nil if it has none (satisfied or not), the error
otherwise. -/
theorem waitFor_closure_evaluates_once_more {σ ε : Type} (wait : WaitFunc)
    (fn : ConditionFunc σ ε) (done : StopCh) (w : World σ) (n : Nat)
    (hticks : ∀ i, i < n → wait done i = true) (hclosed : wait done n = false)
    (hres : ∀ i, i < n → resultAt fn w.cond i = (false, none)) :
    ∀ fuel, n < fuel →
      WaitFor wait fn done fuel w =
        some ((resultAt fn w.cond n).2, { w with cond := stateAfter fn (n + 1) w.cond,
                                                 evals := w.evals + (n + 1),
                                                 starts := w.starts + 1 }) := by
  intro fuel hfuel
  exact waitForLoop_decides fn (wait done) n fuel (startWait wait done w).2 hfuel hticks hres
    (Or.inr (Or.inr hclosed))

/-- Witness for the amended C9: two ticks answered `(false, nil)`, then closure, on which
the condition is evaluated a third time and returns error 7. -/
theorem waitFor_closure_evaluates_once_more_witness :
    WaitFor (constWait (ticksThenClosed 2)) (errorAt 2 7) privateDone 4 world0
      = some (some 7, ⟨3, 3, 1, 0, []⟩) :=
  waitFor_closure_evaluates_once_more (constWait (ticksThenClosed 2)) (errorAt 2 7)
    privateDone world0 2 (by decide) (by decide) (by decide) 4 (by decide)

/-- Counterexample to C9 as stated: the stream delivers one tick and is closed; the only
tick-triggered evaluation answers `(false, nil)`; on observing closure WaitFor evaluates
the condition again and returns its error 7 instead of nil.  With a condition that differs
only in that last evaluation the same call returns nil. -/
theorem waitFor_closure_counterexample :
    ticksThenClosed 1 0 = true ∧ ticksThenClosed 1 1 = false ∧
    resultAt (errorAt 1 7) 0 0 = (false, none) ∧
    resultAt neverSatisfied 0 0 = (false, none) ∧
    WaitFor (constWait (ticksThenClosed 1)) (errorAt 1 7) privateDone 5 world0
      = some (some 7, ⟨2, 2, 1, 0, []⟩) ∧
    WaitFor (constWait (ticksThenClosed 1)) neverSatisfied privateDone 5 world0
      = some (none, ⟨2, 2, 1, 0, []⟩) := by
  decide

/-! ## Lemmas on the loop of `WaitForFinish` -/

theorem finishLoop_finish {σ ε : Type} (fn : ConditionFunc σ ε) (sg : SigEnv) (ch : TickStream)
    (fuel i : Nat) (w : World σ) (h : sg.takesFinish i = true) :
    finishLoop fn sg ch (fuel + 1) i w = some (none, w) := by
  simp only [finishLoop, h, if_true]

theorem finishLoop_err {σ ε : Type} (fn : ConditionFunc σ ε) (sg : SigEnv) (ch : TickStream)
    (fuel i : Nat) (w : World σ) (e : ε) (hs : sg.takesFinish i = false)
    (h : (resultAt fn w.cond 0).2 = some e) :
    finishLoop fn sg ch (fuel + 1) i w = some (some e, advance fn 1 w) := by
  have h1 : (evalCond fn w).1.2 = some e := h
  simp only [finishLoop, hs, h1]
  rfl

theorem finishLoop_closed {σ ε : Type} (fn : ConditionFunc σ ε) (sg : SigEnv) (ch : TickStream)
    (fuel i : Nat) (w : World σ) (hs : sg.takesFinish i = false)
    (h : (resultAt fn w.cond 0).2 = none) (hc : ch i = false) :
    finishLoop fn sg ch (fuel + 1) i w = some (none, advance fn 1 w) := by
  have h1 : (evalCond fn w).1.2 = none := h
  simp only [finishLoop, hs, h1, hc]
  rfl

theorem finishLoop_next {σ ε : Type} (fn : ConditionFunc σ ε) (sg : SigEnv) (ch : TickStream)
    (fuel i : Nat) (w : World σ) (hs : sg.takesFinish i = false)
    (h : (resultAt fn w.cond 0).2 = none) (hc : ch i = true) :
    finishLoop fn sg ch (fuel + 1) i w = finishLoop fn sg ch fuel (i + 1) (advance fn 1 w) := by
  have h1 : (evalCond fn w).1.2 = none := h
  simp only [finishLoop, hs, h1, hc]
  rfl

/-- Rounds in which the receive on `ch` is taken, a tick arrives and the condition returns
no error leave the loop running, whatever the flag `done` of the condition. -/
theorem finishLoop_rounds {σ ε : Type} (fn : ConditionFunc σ ε) (sg : SigEnv) (ch : TickStream)
    (k : Nat) : ∀ (fuel i : Nat) (w : World σ),
    (∀ j, j < k → sg.takesFinish (i + j) = false ∧ ch (i + j) = true ∧
      (resultAt fn w.cond j).2 = none) →
    finishLoop fn sg ch (fuel + k) i w = finishLoop fn sg ch fuel (i + k) (advance fn k w) := by
  induction k with
  | zero => intro fuel i w _; rfl
  | succ k ih =>
    intro fuel i w h
    have h0 := h 0 (Nat.succ_pos k)
    have e1 : fuel + (k + 1) = (fuel + k) + 1 := by omega
    rw [e1, finishLoop_next fn sg ch (fuel + k) i w h0.1 h0.2.2 h0.2.1]
    rw [ih fuel (i + 1) (advance fn 1 w) (fun j hj => by
      have := h (j + 1) (by omega)
      have e4 : i + 1 + j = i + (j + 1) := by omega
      rw [e4]
      exact this)]
    have e2 : i + 1 + k = i + (k + 1) := by omega
    have e3 : advance fn k (advance fn 1 w) = advance fn (k + 1) w := by
      rw [advance_succ fn k w]; rfl
    rw [e2, e3]

/-- What a returning loop of `WaitForFinish` has done. -/
theorem finishLoop_inv {σ ε : Type} (fn : ConditionFunc σ ε) (sg : SigEnv) (ch : TickStream)
    (fuel : Nat) : ∀ (i : Nat) (w : World σ) (r : Option ε) (w2 : World σ),
    finishLoop fn sg ch fuel i w = some (r, w2) →
    ∃ k, k < fuel ∧
      (∀ j, j < k → sg.takesFinish (i + j) = false ∧ ch (i + j) = true ∧
        (resultAt fn w.cond j).2 = none) ∧
      ((sg.takesFinish (i + k) = true ∧ r = none ∧ w2 = advance fn k w) ∨
       (sg.takesFinish (i + k) = false ∧ w2 = advance fn (k + 1) w ∧
        r = (resultAt fn w.cond k).2 ∧ (r = none → ch (i + k) = false))) := by
  induction fuel with
  | zero => intro i w r w2 h; simp [finishLoop] at h
  | succ fuel ih =>
    intro i w r w2 h
    cases hs : sg.takesFinish i with
    | true =>
      rw [finishLoop_finish fn sg ch fuel i w hs] at h
      simp only [Option.some.injEq, Prod.mk.injEq] at h
      exact ⟨0, Nat.succ_pos fuel, fun j hj => absurd hj (Nat.not_lt_zero j),
        Or.inl ⟨hs, h.1.symm, h.2.symm⟩⟩
    | false =>
      cases hoe : (resultAt fn w.cond 0).2 with
      | some e =>
        rw [finishLoop_err fn sg ch fuel i w e hs hoe] at h
        simp only [Option.some.injEq, Prod.mk.injEq] at h
        refine ⟨0, Nat.succ_pos fuel, fun j hj => absurd hj (Nat.not_lt_zero j),
          Or.inr ⟨hs, h.2.symm, ?_, ?_⟩⟩
        · rw [hoe]; exact h.1.symm
        · intro hr; rw [hr] at h; exact absurd h.1 (by simp)
      | none =>
        cases hc : ch i with
        | false =>
          rw [finishLoop_closed fn sg ch fuel i w hs hoe hc] at h
          simp only [Option.some.injEq, Prod.mk.injEq] at h
          refine ⟨0, Nat.succ_pos fuel, fun j hj => absurd hj (Nat.not_lt_zero j),
            Or.inr ⟨hs, h.2.symm, ?_, fun _ => hc⟩⟩
          rw [hoe]; exact h.1.symm
        | true =>
          rw [finishLoop_next fn sg ch fuel i w hs hoe hc] at h
          obtain ⟨k, hk, hpre, hend⟩ := ih (i + 1) (advance fn 1 w) r w2 h
          have e3 : ∀ m, advance fn m (advance fn 1 w) = advance fn (m + 1) w := by
            intro m; rw [advance_succ fn m w]; rfl
          have e4 : ∀ j, i + 1 + j = i + (j + 1) := by intro j; omega
          refine ⟨k + 1, Nat.succ_lt_succ hk, ?_, ?_⟩
          · intro j hj
            cases j with
            | zero => exact ⟨hs, hc, hoe⟩
            | succ j =>
              have := hpre j (by omega)
              rw [e4 j] at this
              exact this
          · rw [e4 k] at hend
            rcases hend with ⟨h1, h2, h3⟩ | ⟨h1, h2, h3, h4⟩
            · exact Or.inl ⟨h1, h2, by rw [h3, e3]⟩
            · exact Or.inr ⟨h1, by rw [h2, e3], h3, h4⟩

theorem advance_listeners {σ ε : Type} (fn : ConditionFunc σ ε) (n : Nat) (w : World σ) :
    (advance fn n w).listeners = w.listeners := rfl

theorem advance_evals {σ ε : Type} (fn : ConditionFunc σ ε) (n : Nat) (w : World σ) :
    (advance fn n w).evals = w.evals + n := rfl

/-- The flag `done` of the condition has no influence on the loop of `WaitForFinish`. -/
theorem finishLoop_flag_irrelevant {σ ε : Type} (fn fn2 : ConditionFunc σ ε) (sg : SigEnv)
    (ch : TickStream) (hsame : ∀ s, (fn s).1.2 = (fn2 s).1.2 ∧ (fn s).2 = (fn2 s).2)
    (fuel : Nat) : ∀ (i : Nat) (w : World σ),
    finishLoop fn sg ch fuel i w = finishLoop fn2 sg ch fuel i w := by
  induction fuel with
  | zero => intro i w; rfl
  | succ fuel ih =>
    intro i w
    have h1 : (evalCond fn w).1.2 = (evalCond fn2 w).1.2 := (hsame w.cond).1
    have h2 : (evalCond fn w).2 = (evalCond fn2 w).2 := by
      simp only [evalCond, (hsame w.cond).2]
    simp only [finishLoop, h1, h2, ih]

/-! ## WaitForFinish: satisfied conditions, termination requests, signal listeners -/

/-- C3 as the code has it.  WaitForFinish discards the flag `done` of every evaluation:
a call gives the same result for two conditions that agree on errors and on the state they
leave, whatever they report as satisfied; so an evaluation that returns `(true, nil)` on a
tick does not end the loop.  A nil return comes only from a termination request taken by
the select (after `k` evaluations) or from a receive that found the stream closed (after
`k+1` evaluations).  An error ends the call: after `k` rounds in which the receive was
taken, a tick arrived and the evaluation returned no error (satisfied or not), if the
select of round `k` takes the receive then an error `e` of evaluation `k+1` is returned as
it is after exactly `k+1` evaluations, and without error a closed stream gives nil after
`k+1` evaluations; conversely every returned error is the error of the last evaluation
made. -/
theorem waitForFinish_ignores_satisfied {σ ε : Type} (wait : WaitFunc)
    (fn fn2 : ConditionFunc σ ε) (done : StopCh) (sg : SigEnv) (w : World σ)
    (hsame : ∀ s, (fn s).1.2 = (fn2 s).1.2 ∧ (fn s).2 = (fn2 s).2) :
    (∀ fuel, WaitForFinish wait fn done sg fuel w = WaitForFinish wait fn2 done sg fuel w) ∧
    (∀ fuel w2, WaitForFinish wait fn done sg fuel w = some (none, w2) →
      ∃ k, (w2.evals = w.evals + k ∧ sg.takesFinish k = true) ∨
           (w2.evals = w.evals + (k + 1) ∧ wait done k = false)) ∧
    (∀ (k : Nat) (e : ε),
      (∀ i, i < k → sg.takesFinish i = false ∧ wait done i = true ∧
        (resultAt fn w.cond i).2 = none) →
      sg.takesFinish k = false →
      (resultAt fn w.cond k).2 = some e →
      ∀ fuel, k < fuel →
        WaitForFinish wait fn done sg fuel w =
          some (some e, { cond := stateAfter fn (k + 1) w.cond,
                          evals := w.evals + (k + 1),
                          starts := w.starts + 1,
                          nextChan := w.nextChan + 1,
                          listeners := w.listeners ++ [w.nextChan] })) ∧
    (∀ (k : Nat),
      (∀ i, i < k → sg.takesFinish i = false ∧ wait done i = true ∧
        (resultAt fn w.cond i).2 = none) →
      sg.takesFinish k = false →
      (resultAt fn w.cond k).2 = none →
      wait done k = false →
      ∀ fuel, k < fuel →
        WaitForFinish wait fn done sg fuel w =
          some (none, { cond := stateAfter fn (k + 1) w.cond,
                        evals := w.evals + (k + 1),
                        starts := w.starts + 1,
                        nextChan := w.nextChan + 1,
                        listeners := w.listeners ++ [w.nextChan] })) ∧
    (∀ (fuel : Nat) (e : ε) (w2 : World σ),
      WaitForFinish wait fn done sg fuel w = some (some e, w2) →
      ∃ k, w2.evals = w.evals + (k + 1) ∧ (resultAt fn w.cond k).2 = some e ∧
        w2.cond = stateAfter fn (k + 1) w.cond) := by
  refine ⟨fun fuel => finishLoop_flag_irrelevant fn fn2 sg _ hsame fuel 0 _, ?_, ?_, ?_, ?_⟩
  · intro fuel w2 h
    obtain ⟨k, _, _, hend⟩ := finishLoop_inv fn sg (wait done) fuel 0
      (startWait wait done (notifyGracefulStop w)).2 none w2 h
    rw [Nat.zero_add] at hend
    refine ⟨k, ?_⟩
    rcases hend with ⟨h1, _, h3⟩ | ⟨_, h2, _, h4⟩
    · exact Or.inl ⟨by rw [h3]; rfl, h1⟩
    · exact Or.inr ⟨by rw [h2]; rfl, h4 rfl⟩
  · intro k e hrun htake herr fuel hfuel
    obtain ⟨f, rfl⟩ : ∃ f, fuel = (f + 1) + k := ⟨fuel - k - 1, by omega⟩
    show finishLoop fn sg (wait done) (f + 1 + k) 0
      (startWait wait done (notifyGracefulStop w)).2 = _
    rw [finishLoop_rounds fn sg (wait done) k (f + 1) 0
      (startWait wait done (notifyGracefulStop w)).2
      (fun j hj => by rw [Nat.zero_add]; exact hrun j hj),
      finishLoop_err fn sg (wait done) f (0 + k) _ e (by rw [Nat.zero_add]; exact htake) herr,
      advance_one_advance]
    rfl
  · intro k hrun htake hnil hclosed fuel hfuel
    obtain ⟨f, rfl⟩ : ∃ f, fuel = (f + 1) + k := ⟨fuel - k - 1, by omega⟩
    show finishLoop fn sg (wait done) (f + 1 + k) 0
      (startWait wait done (notifyGracefulStop w)).2 = _
    rw [finishLoop_rounds fn sg (wait done) k (f + 1) 0
      (startWait wait done (notifyGracefulStop w)).2
      (fun j hj => by rw [Nat.zero_add]; exact hrun j hj),
      finishLoop_closed fn sg (wait done) f (0 + k) _ (by rw [Nat.zero_add]; exact htake) hnil
        (by rw [Nat.zero_add]; exact hclosed),
      advance_one_advance]
    rfl
  · intro fuel e w2 h
    obtain ⟨k, _, _, hend⟩ := finishLoop_inv fn sg (wait done) fuel 0
      (startWait wait done (notifyGracefulStop w)).2 (some e) w2 h
    rcases hend with ⟨_, h2, _⟩ | ⟨_, h2, h3, _⟩
    · exact absurd h2 (by simp)
    · exact ⟨k, by rw [h2]; rfl, h3.symm, by rw [h2]; rfl⟩

/-- Witness for the amended C3: a condition that is always satisfied and one that never is
give the same run of WaitForFinish; and a condition that is satisfied twice and then fails
with error 7 on its third call has that error returned after exactly three evaluations. -/
theorem waitForFinish_ignores_satisfied_witness :
    (∀ fuel,
      WaitForFinish (constWait (ticksThenClosed 2)) alwaysSatisfied privateDone noSignal fuel
          world0
        = WaitForFinish (constWait (ticksThenClosed 2)) neverSatisfied privateDone noSignal fuel
          world0) ∧
    WaitForFinish (constWait (fun _ => true)) (satisfiedThenError 2 7) privateDone noSignal 5
        world0
      = some (some 7, ⟨3, 3, 1, 1, [0]⟩) ∧
    WaitForFinish (constWait (ticksThenClosed 2)) alwaysSatisfied privateDone noSignal 5 world0
      = some (none, ⟨3, 3, 1, 1, [0]⟩) :=
  ⟨(waitForFinish_ignores_satisfied (constWait (ticksThenClosed 2)) alwaysSatisfied
      neverSatisfied privateDone noSignal world0 (fun _ => ⟨rfl, rfl⟩)).1,
   (waitForFinish_ignores_satisfied (constWait (fun _ => true)) (satisfiedThenError 2 7)
      (satisfiedThenError 2 7) privateDone noSignal world0 (fun _ => ⟨rfl, rfl⟩)).2.2.1
      2 7 (by decide) (by decide) (by decide) 5 (by decide),
   (waitForFinish_ignores_satisfied (constWait (ticksThenClosed 2)) alwaysSatisfied
      alwaysSatisfied privateDone noSignal world0 (fun _ => ⟨rfl, rfl⟩)).2.2.2.1
      2 (by decide) (by decide) (by decide) (by decide) 5 (by decide)⟩

/-- Counterexample to C3 as stated: two ticks, then closure, no termination request, a
condition that answers `(true, nil)` every time.  The evaluation on the first tick returns
`(true, nil)`, yet WaitForFinish evaluates the condition three times before it returns;
WaitFor on the same input returns after one evaluation. -/
theorem waitForFinish_satisfied_counterexample :
    ticksThenClosed 2 0 = true ∧
    resultAt alwaysSatisfied 0 0 = (true, none) ∧
    WaitForFinish (constWait (ticksThenClosed 2)) alwaysSatisfied privateDone noSignal 9 world0
      = some (none, ⟨3, 3, 1, 1, [0]⟩) ∧
    WaitFor (constWait (ticksThenClosed 2)) alwaysSatisfied privateDone 9 world0
      = some (none, ⟨1, 1, 1, 0, []⟩) := by
  decide

/-- C6 as the code has it.  After `k` rounds in which the receive on `ch` was taken, a tick
arrived and the condition returned no error, if the select of round `k` finds `finishUp`
available and either nothing is pending on `ch` at that moment or the runtime's choice
does not fall on `ch`, WaitForFinish returns nil with exactly `k` evaluations made: no
evaluation follows the request. -/
theorem waitForFinish_request_taken {σ ε : Type} (wait : WaitFunc) (fn : ConditionFunc σ ε)
    (done : StopCh) (sg : SigEnv) (w : World σ) (k : Nat)
    (hrun : ∀ i, i < k → sg.takesFinish i = false ∧ wait done i = true ∧
      (resultAt fn w.cond i).2 = none)
    (hreq : sg.finishUp k = true)
    (hsole : sg.chReady k = false ∨ sg.pickCh k = false) :
    ∀ fuel, k < fuel →
      WaitForFinish wait fn done sg fuel w =
        some (none, { cond := stateAfter fn k w.cond,
                      evals := w.evals + k,
                      starts := w.starts + 1,
                      nextChan := w.nextChan + 1,
                      listeners := w.listeners ++ [w.nextChan] }) := by
  intro fuel hfuel
  obtain ⟨f, rfl⟩ : ∃ f, fuel = (f + 1) + k := ⟨fuel - k - 1, by omega⟩
  have htake : sg.takesFinish (0 + k) = true := by
    rw [Nat.zero_add]
    rcases hsole with h | h <;> simp [SigEnv.takesFinish, hreq, h]
  show finishLoop fn sg (wait done) (f + 1 + k) 0
    (startWait wait done (notifyGracefulStop w)).2 = _
  rw [finishLoop_rounds fn sg (wait done) k (f + 1) 0
    (startWait wait done (notifyGracefulStop w)).2
    (fun j hj => by rw [Nat.zero_add]; exact hrun j hj),
    finishLoop_finish fn sg (wait done) f (0 + k) _ htake]
  rfl

/-- Witness for the amended C6: two ticks without request, then the request with nothing
pending on `ch`; WaitForFinish returns nil after exactly two evaluations. -/
theorem waitForFinish_request_taken_witness :
    WaitForFinish (constWait (fun _ => true)) neverSatisfied privateDone (requestAt 2) 7 world0
      = some (none, ⟨2, 2, 1, 1, [0]⟩) :=
  waitForFinish_request_taken (constWait (fun _ => true)) neverSatisfied privateDone
    (requestAt 2) world0 2 (by decide) (by decide) (Or.inl (by decide)) 7 (by decide)

/-- Counterexample to C6 as stated: the termination request is available at the first
select (`finishUp 0`), the closure of `ch` (first call) or a tick (second call) is pending
at the same moment and the select takes the receive.  The condition is evaluated once more:
in the first call its error 7 is returned instead of nil, in the second the loop returns
nil only at the next select, after one evaluation. -/
theorem waitForFinish_request_counterexample :
    requestWithPendingCh.finishUp 0 = true ∧
    WaitForFinish (constWait (ticksThenClosed 0)) (errorAt 0 7) privateDone
        requestWithPendingCh 5 world0
      = some (some 7, ⟨1, 1, 1, 1, [0]⟩) ∧
    WaitForFinish (constWait (ticksThenClosed 3)) neverSatisfied privateDone
        requestWithPendingCh 5 world0
      = some (none, ⟨1, 1, 1, 1, [0]⟩) := by
  decide

theorem repeatFinish_listeners {σ ε : Type} (wait : WaitFunc) (fn : ConditionFunc σ ε)
    (done : StopCh) (sg : SigEnv) (fuel : Nat)
    (hone : ∀ (w : World σ) (r : Option ε) (w2 : World σ),
      WaitForFinish wait fn done sg fuel w = some (r, w2) →
      w2.listeners.length = w.listeners.length + 1)
    (n : Nat) : ∀ (w w2 : World σ),
    repeatFinish wait fn done sg fuel n w = some w2 →
    w2.listeners.length = w.listeners.length + n := by
  induction n with
  | zero =>
    intro w w2 h
    simp only [repeatFinish, Option.some.injEq] at h
    rw [← h]; rfl
  | succ n ih =>
    intro w w2 h
    simp only [repeatFinish] at h
    cases hc : WaitForFinish wait fn done sg fuel w with
    | none => rw [hc] at h; simp at h
    | some r =>
      rw [hc] at h
      have h1 := hone w r.1 r.2 hc
      have h2 := ih r.2 w2 h
      rw [h2, h1]
      omega

theorem waitForFinish_listeners {σ ε : Type} (wait : WaitFunc) (fn : ConditionFunc σ ε)
    (done : StopCh) (sg : SigEnv) (fuel : Nat) (w : World σ) (r : Option ε) (w2 : World σ)
    (h : WaitForFinish wait fn done sg fuel w = some (r, w2)) :
    w2.listeners = w.listeners ++ [w.nextChan] ∧ w2.nextChan = w.nextChan + 1 := by
  obtain ⟨k, _, _, hend⟩ := finishLoop_inv fn sg (wait done) fuel 0
    (startWait wait done (notifyGracefulStop w)).2 r w2 h
  rcases hend with ⟨_, _, h3⟩ | ⟨_, h2, _, _⟩
  · rw [h3]; exact ⟨rfl, rfl⟩
  · rw [h2]; exact ⟨rfl, rfl⟩

/-- C8 as the code has it.  WaitForFinish registers a new channel with `signal.Notify` and
never removes it: every call that returns (by error, closure or termination request)
leaves the listeners it found plus that one channel, and `n` calls in a row leave `n` more
listeners than before. -/
theorem waitForFinish_keeps_listener {σ ε : Type} (wait : WaitFunc) (fn : ConditionFunc σ ε)
    (done : StopCh) (sg : SigEnv) (fuel : Nat) (w : World σ) :
    (∀ (r : Option ε) (w2 : World σ),
      WaitForFinish wait fn done sg fuel w = some (r, w2) →
      w2.listeners = w.listeners ++ [w.nextChan] ∧ w2.listeners ≠ w.listeners) ∧
    (∀ (n : Nat) (w2 : World σ),
      repeatFinish wait fn done sg fuel n w = some w2 →
      w2.listeners.length = w.listeners.length + n) := by
  refine ⟨?_, ?_⟩
  · intro r w2 h
    have h1 := (waitForFinish_listeners wait fn done sg fuel w r w2 h).1
    refine ⟨h1, ?_⟩
    intro heq
    have := congrArg List.length heq
    rw [h1] at this
    simp at this
  · intro n w2 h
    exact repeatFinish_listeners wait fn done sg fuel
      (fun w r w2 h => by
        rw [(waitForFinish_listeners wait fn done sg fuel w r w2 h).1]; simp)
      n w w2 h

/-- Witness for the amended C8: three calls in a row, each ended by a termination request,
leave three listeners. -/
theorem waitForFinish_keeps_listener_witness :
    repeatFinish (constWait (fun _ => true)) neverSatisfied privateDone (requestAt 1) 4 3 world0
      = some ⟨3, 3, 3, 3, [0, 1, 2]⟩ ∧
    (⟨3, 3, 3, 3, [0, 1, 2]⟩ : World Nat).listeners.length = world0.listeners.length + 3 :=
  ⟨by decide,
   (waitForFinish_keeps_listener (constWait (fun _ => true)) neverSatisfied privateDone
      (requestAt 1) 4 world0).2 3 ⟨3, 3, 3, 3, [0, 1, 2]⟩ (by decide)⟩

/-- Counterexample to C8 as stated: calls that return by condition error, by closure of
the stream and by termination request each leave the listener `0` registered where there
was none, and three calls in a row leave three. -/
theorem waitForFinish_listener_counterexample :
    world0.listeners = [] ∧
    (WaitForFinish (constWait (fun _ => true)) (errorAt 0 7) privateDone noSignal 4 world0).map
        (fun r => (r.1, r.2.listeners)) = some (some 7, [0]) ∧
    (WaitForFinish (constWait (ticksThenClosed 1)) neverSatisfied privateDone noSignal 4
        world0).map (fun r => (r.1, r.2.listeners)) = some (none, [0]) ∧
    (WaitForFinish (constWait (fun _ => true)) neverSatisfied privateDone (requestAt 1) 4
        world0).map (fun r => (r.1, r.2.listeners)) = some (none, [0]) ∧
    (repeatFinish (constWait (fun _ => true)) neverSatisfied privateDone (requestAt 1) 4 3
        world0).map (fun u => u.listeners) = some [0, 1, 2] := by
  decide

/-! ## The immediate wrappers and PollUntilFinish -/

/-- C4 (immediate short-circuit).  For pollImmediateInterval, PollImmediate and
PollImmediateInfinite: a first evaluation `(true, nil)` gives nil and a first evaluation
with error `e` gives `e`, in both cases for any fuel, with one evaluation made and the
count of started producers unchanged; a first evaluation `(false, nil)` gives the result
of pollInterval, Poll, respectively PollInfinite, run from the state that evaluation
left. -/
theorem pollImmediate_short_circuit {σ ε : Type} (wait : WaitFunc) (rt : Runtime)
    (interval timeout : Int) (condition : ConditionFunc σ ε) (w : World σ) :
    ((condition w.cond).1 = (true, none) → ∀ fuel,
      pollImmediateInterval wait condition fuel w
        = some (none, { w with cond := (condition w.cond).2, evals := w.evals + 1 }) ∧
      PollImmediate rt interval timeout condition fuel w
        = some (none, { w with cond := (condition w.cond).2, evals := w.evals + 1 }) ∧
      PollImmediateInfinite rt interval condition fuel w
        = some (none, { w with cond := (condition w.cond).2, evals := w.evals + 1 })) ∧
    (∀ e, (condition w.cond).1.2 = some e → ∀ fuel,
      pollImmediateInterval wait condition fuel w
        = some (some e, { w with cond := (condition w.cond).2, evals := w.evals + 1 }) ∧
      PollImmediate rt interval timeout condition fuel w
        = some (some e, { w with cond := (condition w.cond).2, evals := w.evals + 1 }) ∧
      PollImmediateInfinite rt interval condition fuel w
        = some (some e, { w with cond := (condition w.cond).2, evals := w.evals + 1 })) ∧
    ((condition w.cond).1 = (false, none) → ∀ fuel,
      pollImmediateInterval wait condition fuel w
        = pollInterval wait condition fuel
            { w with cond := (condition w.cond).2, evals := w.evals + 1 } ∧
      PollImmediate rt interval timeout condition fuel w
        = Poll rt interval timeout condition fuel
            { w with cond := (condition w.cond).2, evals := w.evals + 1 } ∧
      PollImmediateInfinite rt interval condition fuel w
        = PollInfinite rt interval condition fuel
            { w with cond := (condition w.cond).2, evals := w.evals + 1 }) := by
  refine ⟨?_, ?_, ?_⟩
  · intro h fuel
    have h1 : (evalCond condition w).1 = (true, none) := h
    refine ⟨?_, ?_, ?_⟩
    · simp only [pollImmediateInterval, h1, if_true]; rfl
    · simp only [PollImmediate, pollImmediateInterval, h1, if_true]; rfl
    · simp only [PollImmediateInfinite, h1, if_true]; rfl
  · intro e h fuel
    have h1 : (evalCond condition w).1.2 = some e := h
    refine ⟨?_, ?_, ?_⟩
    · simp only [pollImmediateInterval, h1]; rfl
    · simp only [PollImmediate, pollImmediateInterval, h1]; rfl
    · simp only [PollImmediateInfinite, h1]; rfl
  · intro h fuel
    have h1 : (evalCond condition w).1 = (false, none) := h
    refine ⟨?_, ?_, ?_⟩
    · simp only [pollImmediateInterval, h1]; rfl
    · simp only [PollImmediate, pollImmediateInterval, h1]; rfl
    · simp only [PollImmediateInfinite, h1]; rfl

/-- Witness for C4: a condition satisfied on its first call gives nil, and one that fails
on its first call gives its error 7; one evaluation, no producer started, even without
fuel for the loop. -/
theorem pollImmediate_short_circuit_witness :
    (pollImmediateInterval (constWait (fun _ => true)) alwaysSatisfied 0 world0
        = some (none, ⟨1, 1, 0, 0, []⟩) ∧
     PollImmediate ⟨fun _ => false⟩ 10 50 alwaysSatisfied 0 world0
        = some (none, ⟨1, 1, 0, 0, []⟩) ∧
     PollImmediateInfinite ⟨fun _ => false⟩ 10 alwaysSatisfied 0 world0
        = some (none, ⟨1, 1, 0, 0, []⟩)) ∧
    (pollImmediateInterval (constWait (fun _ => true)) (errorAt 0 7) 0 world0
        = some (some 7, ⟨1, 1, 0, 0, []⟩) ∧
     PollImmediate ⟨fun _ => false⟩ 10 50 (errorAt 0 7) 0 world0
        = some (some 7, ⟨1, 1, 0, 0, []⟩) ∧
     PollImmediateInfinite ⟨fun _ => false⟩ 10 (errorAt 0 7) 0 world0
        = some (some 7, ⟨1, 1, 0, 0, []⟩)) :=
  ⟨(pollImmediate_short_circuit (constWait (fun _ => true)) ⟨fun _ => false⟩ 10 50
      alwaysSatisfied world0).1 rfl 0,
   (pollImmediate_short_circuit (constWait (fun _ => true)) ⟨fun _ => false⟩ 10 50
      (errorAt 0 7) world0).2.1 7 rfl 0⟩

/-- With `timeout = 0` and a private stop channel the poller's channel is never closed. -/
theorem poller_unbounded_open (rt : Runtime) (interval : Int) (i : Nat) :
    poller rt interval 0 privateDone i = true := by
  rw [poller_open_iff]
  intro j _
  cases hd : rt.deadline j <;> simp [roundEvent, privateDone, hd, PEvent.returns]

/-- C7 (PollUntilFinish).  The condition is evaluated once first.  An error of that
evaluation is returned as it is, with no producer started and no listener registered.
Without error, satisfied or not, the result is that of WaitForFinish on the poller with
timeout 0 and a private stop channel (whose stream is never closed), run from the state
the evaluation left; every such call that returns has started the producer and registered
the signal channel. -/
theorem pollUntilFinish_first_evaluation {σ ε : Type} (rt : Runtime) (sg : SigEnv)
    (interval : Int) (condition : ConditionFunc σ ε) (w : World σ) :
    (∀ e, (condition w.cond).1.2 = some e → ∀ fuel,
      PollUntilFinish rt sg interval condition fuel w
        = some (some e, { w with cond := (condition w.cond).2, evals := w.evals + 1 })) ∧
    ((condition w.cond).1.2 = none → ∀ fuel,
      PollUntilFinish rt sg interval condition fuel w
        = WaitForFinish (poller rt interval 0) condition privateDone sg fuel
            { w with cond := (condition w.cond).2, evals := w.evals + 1 } ∧
      (∀ r w2, PollUntilFinish rt sg interval condition fuel w = some (r, w2) →
        w2.starts = w.starts + 1 ∧ w2.listeners = w.listeners ++ [w.nextChan])) ∧
    (0 < interval → ∀ i, poller rt interval 0 privateDone i = true) := by
  refine ⟨?_, ?_, fun _ => poller_unbounded_open rt interval⟩
  · intro e h fuel
    have h1 : (evalCond condition w).1.2 = some e := h
    simp only [PollUntilFinish, h1]; rfl
  · intro h fuel
    have h1 : (evalCond condition w).1.2 = none := h
    have heq : PollUntilFinish rt sg interval condition fuel w
        = WaitForFinish (poller rt interval 0) condition privateDone sg fuel
            { w with cond := (condition w.cond).2, evals := w.evals + 1 } := by
      simp only [PollUntilFinish, h1]; rfl
    refine ⟨heq, ?_⟩
    intro r w2 hret
    rw [heq] at hret
    obtain ⟨k, _, _, hend⟩ := finishLoop_inv condition sg (poller rt interval 0 privateDone)
      fuel 0 _ r w2 hret
    rcases hend with ⟨_, _, h3⟩ | ⟨_, h2, _, _⟩
    · rw [h3]; exact ⟨rfl, rfl⟩
    · rw [h2]; exact ⟨rfl, rfl⟩

/-- Witness for C7: a condition that is satisfied at once; PollUntilFinish still enters
the loop and evaluates it again on every tick until the termination request of round 2. -/
theorem pollUntilFinish_first_evaluation_witness :
    PollUntilFinish ⟨fun _ => false⟩ (requestAt 2) 10 alwaysSatisfied 5 world0
      = WaitForFinish (poller ⟨fun _ => false⟩ 10 0) alwaysSatisfied privateDone (requestAt 2) 5
          { world0 with cond := (alwaysSatisfied world0.cond).2, evals := world0.evals + 1 } ∧
    PollUntilFinish ⟨fun _ => false⟩ (requestAt 2) 10 alwaysSatisfied 5 world0
      = some (none, ⟨3, 3, 1, 1, [0]⟩) :=
  ⟨((pollUntilFinish_first_evaluation ⟨fun _ => false⟩ (requestAt 2) 10 alwaysSatisfied
      world0).2.1 rfl 5).1, by decide⟩

/-! ## The closure rule of the producer -/

theorem returns_iff (timeout : Int) (e : PEvent) :
    e.returns timeout = true ↔ (e = PEvent.stop ∨ (e = PEvent.deadline ∧ timeout ≠ 0)) := by
  cases e <;> simp [PEvent.returns]

theorem pollerRun_append (timeout : Int) (p : Producer) (a b : List PEvent) :
    pollerRun timeout p (a ++ b) = pollerRun timeout (pollerRun timeout p a) b := by
  simp only [pollerRun, List.foldl_append]

/-- A producer that has returned takes no further step. -/
theorem pollerRun_returned (timeout : Int) (evs : List PEvent) :
    ∀ p : Producer, p.running = false → pollerRun timeout p evs = p := by
  induction evs with
  | nil => intro p _; rfl
  | cons e evs ih =>
    intro p hp
    have hstep : pollerStep timeout p e = p := by
      cases e <;> simp [pollerStep, hp]
    simp only [pollerRun, List.foldl_cons, hstep]
    exact ih p hp

/-- The channel is closed exactly when the producer has returned. -/
theorem pollerStep_closed_iff (timeout : Int) (p : Producer) (e : PEvent)
    (h : POp.close ∈ p.ops ↔ p.running = false) :
    POp.close ∈ (pollerStep timeout p e).ops ↔ (pollerStep timeout p e).running = false := by
  cases hp : p.running with
  | false =>
    have hstep : pollerStep timeout p e = p := by
      cases e <;> simp [pollerStep, hp]
    rw [hstep, hp]; rw [hp] at h; exact h
  | true =>
    have hno : POp.close ∉ p.ops := by
      intro hc; have := h.1 hc; rw [hp] at this; exact absurd this (by decide)
    cases e with
    | interval r => simp [pollerStep, hp, hno]
    | deadline =>
      by_cases ht : timeout = 0
      · simp [pollerStep, hp, ht, hno]
      · simp [pollerStep, hp, ht, pollerExit]
    | stop => simp [pollerStep, hp, pollerExit]

theorem pollerRun_closed_iff (timeout : Int) (evs : List PEvent) :
    ∀ p : Producer, (POp.close ∈ p.ops ↔ p.running = false) →
      (POp.close ∈ (pollerRun timeout p evs).ops ↔ (pollerRun timeout p evs).running = false) := by
  induction evs with
  | nil => intro p h; exact h
  | cons e evs ih =>
    intro p h
    simp only [pollerRun, List.foldl_cons]
    exact ih (pollerStep timeout p e) (pollerStep_closed_iff timeout p e h)

theorem pollerStart_closed_iff :
    POp.close ∈ pollerStart.ops ↔ pollerStart.running = false := by
  simp [pollerStart]

/-- Before any returning event the producer runs and its channel is open. -/
theorem pollerRun_open (timeout : Int) (evs : List PEvent)
    (h : ∀ x, x ∈ evs → ¬ (x = PEvent.stop ∨ (x = PEvent.deadline ∧ timeout ≠ 0))) :
    (pollerRun timeout pollerStart evs).running = true ∧
      POp.close ∉ (pollerRun timeout pollerStart evs).ops := by
  have hrun : (pollerRun timeout pollerStart evs).running = true := by
    rw [pollerRun_running]
    simp only [pollerStart, Bool.true_and, List.all_eq_true, Bool.not_eq_true']
    intro x hx
    cases hr : x.returns timeout with
    | false => rfl
    | true => exact absurd ((returns_iff timeout x).1 hr) (h x hx)
  refine ⟨hrun, ?_⟩
  intro hc
  have := (pollerRun_closed_iff timeout evs pollerStart pollerStart_closed_iff).1 hc
  rw [hrun] at this
  exact absurd this (by decide)

theorem pollerExit_count_close (timeout : Int) (p : Producer) (h : POp.close ∉ p.ops) :
    (pollerExit timeout p).ops.count POp.close = 1 := by
  have h0 : p.ops.count POp.close = 0 := List.count_eq_zero_of_not_mem h
  by_cases ht : timeout = 0
  · simp [pollerExit, ht, List.count_append, h0]
  · simp [pollerExit, ht, List.count_append, h0]

theorem pollerExit_getLast (timeout : Int) (p : Producer) :
    (pollerExit timeout p).ops.getLast? = some POp.close := by
  by_cases ht : timeout = 0
  · simp [pollerExit, ht, List.getLast?_append]
  · simp [pollerExit, ht, List.getLast?_append]

/-- C10 (closure rule of the ticker).  Over any sequence of producer events: up to the
first stop event or (with a timer, `timeout ≠ 0`) deadline event the producer runs and its
channel is open; at that event the producer returns and closes the channel, and the events
after it change nothing, so the trace holds exactly one close, as its last operation, and
no offer after it.  Without such an event the channel stays open.  With `timeout = 0` the
channel is closed exactly when a stop event has occurred.  An interval event never closes
the channel nor ends the producer. -/
theorem poller_closure_rule (timeout : Int) :
    (∀ (pre post : List PEvent) (e : PEvent),
        (∀ x, x ∈ pre → ¬ (x = PEvent.stop ∨ (x = PEvent.deadline ∧ timeout ≠ 0))) →
        (e = PEvent.stop ∨ (e = PEvent.deadline ∧ timeout ≠ 0)) →
        (pollerRun timeout pollerStart pre).running = true ∧
        POp.close ∉ (pollerRun timeout pollerStart pre).ops ∧
        pollerRun timeout pollerStart (pre ++ e :: post)
          = pollerExit timeout (pollerRun timeout pollerStart pre) ∧
        (pollerRun timeout pollerStart (pre ++ e :: post)).ops.count POp.close = 1 ∧
        (pollerRun timeout pollerStart (pre ++ e :: post)).ops.getLast? = some POp.close) ∧
    (∀ evs : List PEvent,
        (∀ x, x ∈ evs → ¬ (x = PEvent.stop ∨ (x = PEvent.deadline ∧ timeout ≠ 0))) →
        (pollerRun timeout pollerStart evs).running = true ∧
        POp.close ∉ (pollerRun timeout pollerStart evs).ops) ∧
    (timeout = 0 → ∀ evs : List PEvent,
        (POp.close ∈ (pollerRun timeout pollerStart evs).ops ↔ PEvent.stop ∈ evs)) ∧
    (∀ (p : Producer) (r : Bool),
        (pollerStep timeout p (PEvent.interval r)).running = p.running ∧
        (pollerStep timeout p (PEvent.interval r)).ops.count POp.close
          = p.ops.count POp.close) := by
  refine ⟨?_, pollerRun_open timeout, ?_, ?_⟩
  · intro pre post e hpre he
    obtain ⟨hrun, hopen⟩ := pollerRun_open timeout pre hpre
    have hstep : pollerStep timeout (pollerRun timeout pollerStart pre) e
        = pollerExit timeout (pollerRun timeout pollerStart pre) := by
      rcases he with he | ⟨he, ht⟩
      · subst he; simp [pollerStep, hrun]
      · subst he; simp [pollerStep, hrun, ht]
    have hall : pollerRun timeout pollerStart (pre ++ e :: post)
        = pollerExit timeout (pollerRun timeout pollerStart pre) := by
      rw [pollerRun_append]
      show pollerRun timeout (pollerStep timeout (pollerRun timeout pollerStart pre) e) post = _
      rw [hstep]
      exact pollerRun_returned timeout post _ rfl
    refine ⟨hrun, hopen, hall, ?_, ?_⟩
    · rw [hall]; exact pollerExit_count_close timeout _ hopen
    · rw [hall]; exact pollerExit_getLast timeout _
  · intro ht evs
    rw [pollerRun_closed_iff timeout evs pollerStart pollerStart_closed_iff, pollerRun_running]
    subst ht
    simp only [pollerStart, Bool.true_and]
    constructor
    · intro h
      have h2 : ¬ (evs.all (fun e => !(e.returns 0)) = true) := by rw [h]; decide
      rw [List.all_eq_true] at h2
      push_neg at h2
      obtain ⟨x, hx, hr⟩ := h2
      have hr2 : x.returns 0 = true := by
        cases hh : x.returns 0 with
        | true => rfl
        | false => rw [hh] at hr; exact absurd rfl hr
      rcases (returns_iff 0 x).1 hr2 with h3 | ⟨_, h3⟩
      · rw [← h3]; exact hx
      · exact absurd rfl h3
    · intro h
      cases hall : evs.all (fun e => !(e.returns 0)) with
      | false => rfl
      | true =>
        rw [List.all_eq_true] at hall
        have := hall PEvent.stop h
        simp [PEvent.returns] at this
  · intro p r
    cases hp : p.running <;> simp [pollerStep, hp, List.count_append]

/-- Witness for C10: with a timer, two interval events (one tick delivered, one dropped),
then the deadline, then more events: the trace ends with the single close. -/
theorem poller_closure_rule_witness :
    (pollerRun 30 pollerStart [PEvent.interval true, PEvent.interval false]).running = true ∧
    POp.close ∉
      (pollerRun 30 pollerStart [PEvent.interval true, PEvent.interval false]).ops ∧
    pollerRun 30 pollerStart
        ([PEvent.interval true, PEvent.interval false] ++
          PEvent.deadline :: [PEvent.interval true, PEvent.stop])
      = pollerExit 30 (pollerRun 30 pollerStart [PEvent.interval true, PEvent.interval false]) ∧
    (pollerRun 30 pollerStart
        ([PEvent.interval true, PEvent.interval false] ++
          PEvent.deadline :: [PEvent.interval true, PEvent.stop])).ops.count POp.close = 1 ∧
    (pollerRun 30 pollerStart
        ([PEvent.interval true, PEvent.interval false] ++
          PEvent.deadline :: [PEvent.interval true, PEvent.stop])).ops.getLast?
      = some POp.close :=
  (poller_closure_rule 30).1 [PEvent.interval true, PEvent.interval false]
    [PEvent.interval true, PEvent.stop] PEvent.deadline (by decide) (Or.inr (by decide))

end Wait
